import Mathlib

/-!
Verification of the commit-activity aggregation core of
`src/template/main.py` (per-country GitHub activity time series).

Shallow embedding conventions:

* A calendar date is its proleptic Gregorian ordinal (a `Nat`), exactly
  Python's `date.toordinal()`: `2024-01-01 = 738886`.  The input date
  strings are in zero-padded `"YYYY-MM-DD"` format (per the external
  interface contract), on which Python's string order used by `sorted`
  coincides with calendar order, so sorting date strings is modelled as
  sorting ordinals.
* The JSON input mapping `user_id -> {"daily_commits": {date: count}}`
  is flattened into the list of its `(user, date, count)` records
  (`CommitRecord`); dict-iteration order is immaterial and is covered by
  the permutation-invariance theorem for C8.
* Python floats produced by `np.mean` are modelled as exact rationals;
  `np.mean` of an empty slice yields NaN (it does not raise), modelled
  as `none : Option ℚ`.
* A failed file load / malformed JSON (the `except` branches) is
  modelled by the `Option`-taking wrappers `load_and_process_data_opt`
  and `calculate_weekly_data_opt` (`none` = load failure).
-/

/-- One `(user, date, count)` record extracted from the per-country input
mapping `user_id → {"daily_commits": {"YYYY-MM-DD": count}}`.  The date
is its proleptic Gregorian ordinal and the count an arbitrary JSON
integer. -/
structure CommitRecord where
  user : String
  date : Nat
  cnt : Int
deriving DecidableEq

/-- `np.mean` on a list of numbers: the arithmetic mean for a nonempty
list, NaN (modelled `none`) for the empty list (numpy emits a
`RuntimeWarning` and returns `nan`; it does not raise). -/
def npMean (l : List ℚ) : Option ℚ :=
  if l = [] then none else some (l.sum / (l.length : ℚ))

/-- `calculate_rolling_average` (main.py 109-122): for each index `i`,
the mean of `data_series[:i+1]` while `i < window_size - 1`, otherwise
the mean of `data_series[i-window_size+1:i+1]`.  The slice
`l[a:b]` with `0 ≤ a` is `(l.take b).drop a`; in the second branch the
start index `i - window_size + 1` is never negative (it is `≥ 0` when
the branch is taken with `window_size ≥ 1`, and `≥ i+1` when
`window_size ≤ 0`), so no Python negative-index wrap-around arises.
`Int.toNat` clamps at `0`, matching the first case. -/
def calculate_rolling_average (data_series : List ℚ) (window_size : Int) :
    List (Option ℚ) :=
  (List.range data_series.length).map (fun (i : Nat) =>
    if (i : Int) < window_size - 1 then
      npMean (data_series.take (i + 1))
    else
      npMean ((data_series.take (i + 1)).drop ((i : Int) + 1 - window_size).toNat))

/-- The window the spec ascribes to entry `i`: the input elements at
indices `max (0, i - w + 1) .. i` (`Int.toNat` realises the `max 0`). -/
def windowOf (data_series : List ℚ) (window_size : Int) (i : Nat) : List ℚ :=
  (data_series.take (i + 1)).drop ((i : Int) + 1 - window_size).toNat

/-- One step of the percentage-change loop (main.py 430-436): the
day-over-day change of a rolling-average value. -/
def pct_change_step (yesterday today : ℚ) : ℚ :=
  if yesterday ≠ 0 then (today - yesterday) / yesterday * 100
  else if today = 0 then 0 else 100

/-- The percentage-change series (main.py 426-438): for each `i` in
`range(1, len(vals))`, the step applied to `vals[i-1]` and `vals[i]`;
expressed as a map over consecutive pairs. -/
def pct_change (vals : List ℚ) : List ℚ :=
  (vals.zip vals.tail).map (fun p => pct_change_step p.1 p.2)

/-- The date column of the percentage-change series (main.py 439):
`fechas[i]` for `i` in `range(1, len(vals))`. -/
def pct_change_fechas (fechas : List Nat) (vals : List ℚ) : List Nat :=
  (List.range' 1 (vals.length - 1)).map (fun i => fechas.getD i 0)

/-- `commits_by_day[d]` (main.py 20, 29): the sum of the counts of all
records on date `d` (a `defaultdict(int)` accumulated with `+=`). -/
def commitsByDay (recs : List CommitRecord) (d : Nat) : Int :=
  ((recs.filter (fun r => decide (r.date = d))).map (fun r => r.cnt)).sum

/-- `len(active_users_by_day[d])` (main.py 21, 30-31, 49): the number of
distinct users having a record on date `d` with a count `> 0`
(a `defaultdict(set)`; a missing key reads as the empty set). -/
def activeUsersByDay (recs : List CommitRecord) (d : Nat) : Nat :=
  (((recs.filter (fun r => decide (r.date = d) && decide (0 < r.cnt))).map
    (fun r => r.user)).dedup).length

/-- The distinct recorded dates: the key set of `commits_by_day`
(every record creates its key, whatever its count). -/
def datesOf (recs : List CommitRecord) : List Nat :=
  (recs.map (fun r => r.date)).dedup

/-- `fechas = sorted(commits_by_day.keys())` (main.py 34): the distinct
recorded dates in increasing order (string order of zero-padded
`"YYYY-MM-DD"` keys coincides with ordinal order). -/
def sortedDates (recs : List CommitRecord) : List Nat :=
  List.insertionSort (fun a b => a ≤ b) (datesOf recs)

/-- The `while current <= end` loop of main.py 58-61: all dates from
`lo` to `hi` inclusive, stepping one day (`empty` when `hi < lo`). -/
def dateRange (lo hi : Nat) : List Nat :=
  (List.range (hi + 1 - lo)).map (fun k => lo + k)

/-- The result dictionary of `load_and_process_data` (main.py 92-98). -/
structure DailySeries where
  fechas : List Nat
  commits_rolling_avg : List (Option ℚ)
  users_rolling_avg : List (Option ℚ)
  raw_commits : List Int
  raw_users : List Nat
deriving DecidableEq

/-- The all-empty result (main.py 37-44 and 101-107). -/
def emptyDaily : DailySeries := ⟨[], [], [], [], []⟩

/-- The gap-filling step (main.py 51-86): when more than one distinct
date exists, rebuild the three columns over the contiguous range from
the first to the last sorted date, keeping a date's aggregated values
when `date_str in commits_by_day` and writing zeros otherwise;
with a single date the original columns are kept. -/
def completeSeries (fechas : List Nat) (cbd : Nat → Int) (aud : Nat → Nat)
    (recorded : Nat → Bool) : List Nat × List Int × List Nat :=
  if 1 < fechas.length then
    (dateRange (fechas.headD 0) (fechas.getLastD 0),
     (dateRange (fechas.headD 0) (fechas.getLastD 0)).map
       (fun d => if recorded d then cbd d else 0),
     (dateRange (fechas.headD 0) (fechas.getLastD 0)).map
       (fun d => if recorded d then aud d else 0))
  else
    (fechas, fechas.map cbd, fechas.map aud)

/-- Assembly of `load_and_process_data`'s successful path
(main.py 33-98): empty input gives the empty result, otherwise the
(possibly gap-filled) columns plus their rolling averages. -/
def buildDaily (fechas : List Nat) (cbd : Nat → Int) (aud : Nat → Nat)
    (recorded : Nat → Bool) (w : Int) : DailySeries :=
  if fechas = [] then emptyDaily
  else
    { fechas := (completeSeries fechas cbd aud recorded).1
      raw_commits := (completeSeries fechas cbd aud recorded).2.1
      raw_users := (completeSeries fechas cbd aud recorded).2.2
      commits_rolling_avg := calculate_rolling_average
        ((completeSeries fechas cbd aud recorded).2.1.map (fun c => (c : ℚ))) w
      users_rolling_avg := calculate_rolling_average
        ((completeSeries fechas cbd aud recorded).2.2.map (fun u => (u : ℚ))) w }

/-- `load_and_process_data` (main.py 12-98) on an already-loaded input,
flattened to its `(user, date, count)` records. -/
def load_and_process_data (recs : List CommitRecord) (w : Int) : DailySeries :=
  buildDaily (sortedDates recs) (commitsByDay recs) (activeUsersByDay recs)
    (fun d => decide (d ∈ recs.map (fun r => r.date))) w

/-- The spec's example input: one user with 3 commits on 2024-01-01
(ordinal 738886) and 2 commits on 2024-01-03 (ordinal 738888). -/
def exampleRecs : List CommitRecord :=
  [⟨"u", 738886, 3⟩, ⟨"u", 738888, 2⟩]

/-- `load_and_process_data` including its `try/except` (main.py 14-107):
`none` models a missing input file or malformed JSON, for which the
handler returns the empty result dictionary. -/
def load_and_process_data_opt (input : Option (List CommitRecord))
    (w : Int) : DailySeries :=
  match input with
  | none => emptyDaily
  | some recs => load_and_process_data recs w

/-- The per-country loop of the plotting drivers (main.py 214-218,
286-300, 412-420): each country's series is built independently from
that country's own input. -/
def processAllDaily (inputs : List (Option (List CommitRecord)))
    (w : Int) : List DailySeries :=
  inputs.map (fun inp => load_and_process_data_opt inp w)

/-- The decimal digit characters; `digitCh d` is the character of the
digit value `d < 10`. -/
def digitCh (d : Nat) : Char :=
  ['0', '1', '2', '3', '4', '5', '6', '7', '8', '9'].getD d '0'

/-- The decimal representation of `n`, most significant digit first,
accumulated onto `acc` — the characters Python's f-string `f"{n}"`
produces. -/
def natDigitsAux (n : Nat) (acc : List Char) : List Char :=
  if h : n = 0 then acc
  else natDigitsAux (n / 10) (digitCh (n % 10) :: acc)
termination_by n
decreasing_by
  exact Nat.div_lt_self (Nat.pos_of_ne_zero h) (by norm_num)

/-- `f"{n}"` for a natural number `n` (`"0"` for zero). -/
def natDigits (n : Nat) : List Char :=
  if n = 0 then ['0'] else natDigitsAux n []

/-- A character CPython's `\d` matches. -/
def isDigitCh (c : Char) : Bool :=
  decide (48 ≤ c.toNat) && decide (c.toNat ≤ 57)

/-- A character CPython's `%u` pattern `[1-7]` matches. -/
def isDayCh (c : Char) : Bool :=
  decide (49 ≤ c.toNat) && decide (c.toNat ≤ 55)

/-- The part of the `"%G-W%V-%u"` format after the literal `"W"`:
one or two week digits, a literal `"-"`, and an ISO weekday `[1-7]`. -/
def matchWeekTail (s : List Char) : Bool :=
  match s with
  | [x, m, u] => isDigitCh x && decide (m = '-') && isDayCh u
  | [x, y, m, u] =>
      isDigitCh x && isDigitCh y && decide (m = '-') && isDayCh u
  | _ => false

/-- Whether `datetime.strptime(s, "%G-W%V-%u")` succeeds: per CPython's
`_strptime` regexes, `%G` is exactly four digits, then the literal
`"-W"`, then the week number and weekday.  (The bound `%V ≤ 53` is
omitted: it sits after the `'W'` literal that already never matches
below.) -/
def strptime_GWVu (s : List Char) : Bool :=
  match s with
  | a :: b :: c :: d :: e :: f :: rest =>
      isDigitCh a && isDigitCh b && isDigitCh c && isDigitCh d &&
        decide (e = '-') && decide (f = 'W') && matchWeekTail rest
  | _ => false

/-- The string main.py 167 builds and parses: `f"{year}-{week_num}-1"`.
Note it contains no `'W'`, while the format `"%G-W%V-%u"` demands one. -/
def weekLabelParseStr (year week : Nat) : List Char :=
  natDigits year ++ '-' :: (natDigits week ++ ['-', '1'])

/-- The result dictionary of `calculate_weekly_data` (main.py 174-179);
`week_labels` holds the `(iso_year, iso_week)` pairs behind the
`"YYYY-Www"` label strings. -/
structure WeeklySeries where
  fechas : List Nat
  commits : List Int
  active_users : List Nat
  week_labels : List (Nat × Nat)
deriving DecidableEq

/-- The all-empty weekly result (main.py 152-158 and 182-187). -/
def emptyWeekly : WeeklySeries := ⟨[], [], [], []⟩

/-- `commits_by_week[k]` (main.py 131, 144): the sum of the counts of
all records whose date falls in ISO week `k`.  `iso` models Python's
`date.isocalendar()` restricted to `(year, week)`; every theorem below
holds for an arbitrary `iso`, because the weekly output never depends
on it (the week-start parse of main.py 167 fails first). -/
def commitsByWeek (iso : Nat → Nat × Nat) (recs : List CommitRecord)
    (k : Nat × Nat) : Int :=
  ((recs.filter (fun r => decide (iso r.date = k))).map (fun r => r.cnt)).sum

/-- `len(active_users_by_week[k])` (main.py 132, 145-146, 172). -/
def activeUsersByWeek (iso : Nat → Nat × Nat) (recs : List CommitRecord)
    (k : Nat × Nat) : Nat :=
  (((recs.filter (fun r =>
      decide (iso r.date = k) && decide (0 < r.cnt))).map
    (fun r => r.user)).dedup).length

/-- `weeks = sorted(commits_by_week.keys())` (main.py 149): the distinct
ISO-week keys sorted; the source sorts the zero-padded `"YYYY-Www"`
label strings, which for four-digit years is the lexicographic order on
`(year, week)` used here.  (For the theorems below the order is
immaterial: every output path yields the empty series.) -/
def weekKeys (iso : Nat → Nat × Nat) (recs : List CommitRecord) :
    List (Nat × Nat) :=
  List.insertionSort (fun a b => a.1 < b.1 ∨ (a.1 = b.1 ∧ a.2 ≤ b.2))
    ((recs.map (fun r => iso r.date)).dedup)

/-- `calculate_weekly_data` (main.py 124-187) on an already-loaded
input.  The body is wrapped in `try/except` returning the empty dict;
line 167 runs `strptime(f"{year}-{week_num}-1", "%G-W%V-%u")` for each
sorted week key, which raises `ValueError` whenever the built string
fails the format — an exception at any key aborts the whole call, so
the non-empty branch is guarded by all keys parsing.  `mondayOf` models
the date a successful parse would return (the Monday of the ISO week);
it is never reached because the parse always fails. -/
def calculate_weekly_data (iso : Nat → Nat × Nat)
    (mondayOf : Nat → Nat → Nat) (recs : List CommitRecord) : WeeklySeries :=
  if weekKeys iso recs = [] then emptyWeekly
  else if (weekKeys iso recs).all
      (fun k => strptime_GWVu (weekLabelParseStr k.1 k.2)) then
    { fechas := (weekKeys iso recs).map (fun k => mondayOf k.1 k.2)
      commits := (weekKeys iso recs).map (commitsByWeek iso recs)
      active_users := (weekKeys iso recs).map (activeUsersByWeek iso recs)
      week_labels := weekKeys iso recs }
  else emptyWeekly

/-- `calculate_weekly_data` including its failed-load path: `none`
models a missing input file or malformed JSON. -/
def calculate_weekly_data_opt (iso : Nat → Nat × Nat)
    (mondayOf : Nat → Nat → Nat) (input : Option (List CommitRecord)) :
    WeeklySeries :=
  match input with
  | none => emptyWeekly
  | some recs => calculate_weekly_data iso mondayOf recs

lemma windowOf_length (data : List ℚ) (w : Int) (i : Nat)
    (hi : i < data.length) :
    (windowOf data w i).length = i + 1 - ((i : Int) + 1 - w).toNat := by
  have htake : (data.take (i + 1)).length = i + 1 := by
    simp [List.length_take]; omega
  simp [windowOf, List.length_drop, htake]

lemma windowOf_ne_nil (data : List ℚ) (w : Int) (i : Nat)
    (hi : i < data.length) (hw : 1 ≤ w) :
    windowOf data w i ≠ [] := by
  have hle : ((i : Int) + 1 - w).toNat ≤ i := by omega
  have := windowOf_length data w i hi
  intro hnil
  rw [hnil] at this
  simp at this
  omega

lemma calculate_rolling_average_getD (data : List ℚ) (w : Int) (i : Nat)
    (hi : i < data.length) :
    (calculate_rolling_average data w).getD i none =
      (if (i : Int) < w - 1 then
        npMean (data.take (i + 1))
      else
        npMean ((data.take (i + 1)).drop ((i : Int) + 1 - w).toNat)) := by
  simp [calculate_rolling_average, List.getD_eq_getElem?_getD, hi]

/-- Claim C2: for every finite sequence and every window size `w ≥ 1`,
`calculate_rolling_average` returns a sequence of equal length whose
entry `i` is the arithmetic mean of the input elements at indices
`max (0, i-w+1) .. i`; empty input gives empty output;
`RollingAverage([1,2,3,4], 2) = [1.0, 1.5, 2.5, 3.5]`; and
`RollingAverage([5], w) = [5.0]` for every `w ≥ 1`. -/
theorem c2_rolling_average_spec :
    (∀ (data : List ℚ) (w : Int), 1 ≤ w →
      (calculate_rolling_average data w).length = data.length ∧
      ∀ i, i < data.length →
        (calculate_rolling_average data w).getD i none =
          some ((windowOf data w i).sum / ((windowOf data w i).length : ℚ))) ∧
    (∀ w : Int, calculate_rolling_average [] w = []) ∧
    calculate_rolling_average [1, 2, 3, 4] 2 =
      [some 1, some (3/2), some (5/2), some (7/2)] ∧
    (∀ w : Int, 1 ≤ w → calculate_rolling_average [5] w = [some 5]) := by
  refine ⟨?_, ?_, ?ex, ?_⟩
  case ex =>
    show (List.range 4).map _ = _
    norm_num [List.range_succ, calculate_rolling_average, npMean,
      show Int.toNat 2 = 2 from rfl]
  · intro data w hw
    refine ⟨by simp [calculate_rolling_average], ?_⟩
    intro i hi
    rw [calculate_rolling_average_getD data w i hi]
    have hne : windowOf data w i ≠ [] := windowOf_ne_nil data w i hi hw
    by_cases hbr : (i : Int) < w - 1
    · have h0 : ((i : Int) + 1 - w).toNat = 0 := by omega
      rw [if_pos hbr]
      have hwin : windowOf data w i = data.take (i + 1) := by
        simp [windowOf, h0]
      rw [← hwin, npMean, if_neg hne]
    · rw [if_neg hbr]
      show npMean (windowOf data w i) = _
      rw [npMean, if_neg hne]
  · intro w
    simp [calculate_rolling_average]
  · intro w hw
    have h1 : (calculate_rolling_average [5] w).length = 1 := by
      simp [calculate_rolling_average]
    rcases List.length_eq_one.mp h1 with ⟨x, hx⟩
    have h0 : (calculate_rolling_average [(5 : ℚ)] w).getD 0 none = x := by
      simp [hx]
    rw [calculate_rolling_average_getD _ w 0 (by simp)] at h0
    have hx5 : x = some 5 := by
      by_cases hbr : ((0 : Nat) : Int) < w - 1
      · rw [if_pos hbr] at h0
        simpa [npMean] using h0.symm
      · rw [if_neg hbr] at h0
        simp only [Nat.cast_zero] at h0
        have h0' : ((0 : Int) + 1 - w).toNat = 0 := by omega
        rw [h0'] at h0
        simpa [npMean] using h0.symm
    rw [hx, hx5]

/-- Witness for C2 at the spec's concrete input `[1,2,3,4]`, `w = 2`. -/
theorem c2_witness :
    (calculate_rolling_average [1, 2, 3, 4] 2).length = 4 ∧
    (calculate_rolling_average [1, 2, 3, 4] 2).getD 2 none =
      some ((windowOf [1, 2, 3, 4] 2 2).sum /
        ((windowOf [1, 2, 3, 4] 2 2).length : ℚ)) := by
  have h := c2_rolling_average_spec.1 [1, 2, 3, 4] 2 (by norm_num)
  exact ⟨by simpa using h.1, h.2 2 (by norm_num)⟩

/-- Counterexample for claim C5: at window size `0` on input `[1]` the
code does not fail: `np.mean` of the empty slice returns NaN (with a
`RuntimeWarning`), so the call returns the one-element result `[nan]`
instead of raising anything like `InvalidArgument`. -/
theorem c5_counterexample : calculate_rolling_average [1] 0 = [none] := by
  decide

/-- Claim C5 as amended: for every window size `w ≤ 0`,
`calculate_rolling_average` silently returns a list of the same length
as its input all of whose entries are NaN (each is `np.mean` of an empty
slice); it raises no error. -/
theorem c5_nonpositive_window_returns_nan :
    ∀ (data : List ℚ) (w : Int), w ≤ 0 →
      (calculate_rolling_average data w).length = data.length ∧
      ∀ x ∈ calculate_rolling_average data w, x = none := by
  intro data w hw
  refine ⟨by simp [calculate_rolling_average], ?_⟩
  intro x hx
  simp only [calculate_rolling_average, List.mem_map, List.mem_range] at hx
  obtain ⟨i, hi, hxe⟩ := hx
  have hbr : ¬ ((i : Int) < w - 1) := by omega
  rw [if_neg hbr] at hxe
  have hdrop : ((data.take (i + 1)).drop ((i : Int) + 1 - w).toNat) = [] := by
    apply List.drop_eq_nil_of_le
    have : (data.take (i + 1)).length ≤ i + 1 := by
      simp [List.length_take]
    omega
  rw [hdrop] at hxe
  simpa [npMean] using hxe.symm

/-- Witness for the amended C5 at `data = [1,2]`, `w = 0`. -/
theorem c5_witness : (calculate_rolling_average [1, 2] 0).length = 2 := by
  have h := (c5_nonpositive_window_returns_nan [1, 2] 0 (by norm_num)).1
  simpa using h

lemma pct_change_length (vals : List ℚ) :
    (pct_change vals).length = vals.length - 1 := by
  simp [pct_change]

lemma pct_change_getD (vals : List ℚ) (i : Nat) (h : i + 1 < vals.length) :
    (pct_change vals).getD i 0 =
      pct_change_step (vals.getD i 0) (vals.getD (i + 1) 0) := by
  have h2 : i < vals.length := by omega
  have ht : vals.tail[i]? = some (vals.getD (i + 1) 0) := by
    rw [List.getElem?_tail, List.getElem?_eq_getElem h,
      List.getD_eq_getElem _ _ h]
  have hz : (vals.zip vals.tail)[i]? =
      some (vals.getD i 0, vals.getD (i + 1) 0) := by
    rw [List.getElem?_zip_eq_some]
    exact ⟨by rw [List.getElem?_eq_getElem h2, List.getD_eq_getElem _ _ h2], ht⟩
  rw [pct_change, List.getD_eq_getElem?_getD, List.getElem?_map, hz]
  rfl

lemma pct_change_fechas_eq (fechas : List Nat) (vals : List ℚ)
    (h : fechas.length = vals.length) :
    pct_change_fechas fechas vals = fechas.drop 1 := by
  apply List.ext_getElem?
  intro n
  rw [pct_change_fechas, List.getElem?_map]
  by_cases hn : n < vals.length - 1
  · rw [List.getElem?_range' 1 1 hn, List.getElem?_drop]
    have h1n : 1 + n < fechas.length := by omega
    simp only [Option.map_some', List.getElem?_eq_getElem h1n,
      List.getD_eq_getElem _ _ (by omega : 1 + 1 * n < fechas.length)]
    norm_num
  · have h1 : (List.range' 1 (vals.length - 1))[n]? = none :=
      List.getElem?_eq_none (by simp; omega)
    have h2 : (fechas.drop 1)[n]? = none :=
      List.getElem?_eq_none (by simp; omega)
    simp [h1, h2]
    omega

/-- Claim C3: the percentage-change series has one entry per index `i ≥ 1`
of the rolling-average series, computed as `(today - yesterday) /
yesterday * 100` when `yesterday ≠ 0`, as `0` when both are `0`, and as
the sentinel `100` when `yesterday = 0 ≠ today`; the output is aligned
one-to-one with `dates[1:]`; a series of length `< 2` yields an empty
result (and no error); `[0, 0, 5] → [0, 100]` and `[4, 2] → [-50]`. -/
theorem c3_percentage_change_spec :
    (∀ vals : List ℚ,
      (pct_change vals).length = vals.length - 1 ∧
      (vals.length < 2 → pct_change vals = []) ∧
      (∀ i, i + 1 < vals.length →
        (pct_change vals).getD i 0 =
          if vals.getD i 0 = 0 then
            (if vals.getD (i + 1) 0 = 0 then 0 else 100)
          else
            (vals.getD (i + 1) 0 - vals.getD i 0) / vals.getD i 0 * 100)) ∧
    (∀ (fechas : List Nat) (vals : List ℚ), fechas.length = vals.length →
      pct_change_fechas fechas vals = fechas.drop 1 ∧
      (pct_change vals).length = (fechas.drop 1).length) ∧
    pct_change [0, 0, 5] = [0, 100] ∧
    pct_change [4, 2] = [-50] := by
  refine ⟨?_, ?_, ?_, ?_⟩
  · intro vals
    refine ⟨pct_change_length vals, ?_, ?_⟩
    · intro hlt
      have : (pct_change vals).length = 0 := by
        rw [pct_change_length]; omega
      exact List.length_eq_zero.mp this
    · intro i hi
      rw [pct_change_getD vals i hi, pct_change_step]
      by_cases hy : vals.getD i 0 = 0 <;> simp [hy]
  · intro fechas vals h
    refine ⟨pct_change_fechas_eq fechas vals h, ?_⟩
    rw [pct_change_length, List.length_drop, h]
  · norm_num [pct_change, pct_change_step]
  · norm_num [pct_change, pct_change_step]

/-- Witness for C3 at `vals = [4, 2]`, `fechas = [10, 11]`. -/
theorem c3_witness :
    (pct_change [4, 2]).getD 0 0 =
      (if ([4, 2] : List ℚ).getD 1 0 = 0 then 0 else
        (([4, 2] : List ℚ).getD 1 0 - ([4, 2] : List ℚ).getD 0 0) /
          ([4, 2] : List ℚ).getD 0 0 * 100) ∧
    pct_change_fechas [10, 11] [4, 2] = [11] := by
  constructor
  · have h := ((c3_percentage_change_spec.1 [4, 2]).2.2) 0 (by norm_num)
    simpa using h
  · have h := (c3_percentage_change_spec.2.1 [10, 11] [4, 2] (by norm_num)).1
    simpa using h

lemma sortedDates_sorted (recs : List CommitRecord) :
    (sortedDates recs).Sorted (fun a b => a ≤ b) :=
  List.sorted_insertionSort _ _

lemma sortedDates_perm (recs : List CommitRecord) :
    List.Perm (sortedDates recs) (datesOf recs) :=
  List.perm_insertionSort _ _

lemma mem_sortedDates {recs : List CommitRecord} {d : Nat} :
    d ∈ sortedDates recs ↔ d ∈ recs.map (fun r => r.date) := by
  rw [(sortedDates_perm recs).mem_iff, datesOf, List.mem_dedup]

lemma getLastD_mem_or (l : List Nat) (d : Nat) :
    l.getLastD d = d ∨ l.getLastD d ∈ l := by
  induction l generalizing d with
  | nil => exact Or.inl rfl
  | cons a t ih =>
    rw [List.getLastD_cons]
    rcases ih a with h | h
    · exact Or.inr (by rw [h]; exact List.mem_cons_self a t)
    · exact Or.inr (List.mem_cons_of_mem a h)

lemma getLastD_mem {l : List Nat} (h : l ≠ []) (d : Nat) :
    l.getLastD d ∈ l := by
  cases l with
  | nil => exact absurd rfl h
  | cons a t =>
    rw [List.getLastD_cons]
    rcases getLastD_mem_or t a with he | hm
    · rw [he]; exact List.mem_cons_self a t
    · exact List.mem_cons_of_mem a hm

lemma headD_mem {l : List Nat} (h : l ≠ []) (d : Nat) : l.headD d ∈ l := by
  cases l with
  | nil => exact absurd rfl h
  | cons a t => exact List.mem_cons_self a t

lemma sorted_headD_le {l : List Nat} (hs : l.Sorted (fun a b => a ≤ b))
    {b : Nat} (hb : b ∈ l) (d : Nat) : l.headD d ≤ b := by
  cases l with
  | nil => simp at hb
  | cons a t =>
    rcases List.mem_cons.mp hb with rfl | hbt
    · exact le_refl _
    · exact List.rel_of_sorted_cons hs b hbt

lemma sorted_le_getLastD :
    ∀ (l : List Nat), l.Sorted (fun a b => a ≤ b) →
      ∀ d, (∀ c ∈ l, d ≤ c) → ∀ b ∈ l, b ≤ l.getLastD d := by
  intro l
  induction l with
  | nil => intro _ _ _ b hb; simp at hb
  | cons a t ih =>
    intro hs d hd b hb
    rw [List.getLastD_cons]
    have hst := (List.sorted_cons.mp hs).2
    have hat := (List.sorted_cons.mp hs).1
    rcases List.mem_cons.mp hb with rfl | hbt
    · rcases getLastD_mem_or t b with he | hm
      · exact he.ge
      · exact hat _ hm
    · exact ih hst a hat b hbt

lemma sortedDates_ne_nil {recs : List CommitRecord} {lo : Nat}
    (hmem : lo ∈ recs.map (fun r => r.date)) : sortedDates recs ≠ [] := by
  intro h
  have hlo : lo ∈ sortedDates recs := mem_sortedDates.mpr hmem
  rw [h] at hlo
  simp at hlo

lemma sortedDates_headD {recs : List CommitRecord} {lo : Nat}
    (hmem : lo ∈ recs.map (fun r => r.date))
    (hmin : ∀ d ∈ recs.map (fun r => r.date), lo ≤ d) :
    (sortedDates recs).headD 0 = lo := by
  have hne := sortedDates_ne_nil hmem
  have h1 : (sortedDates recs).headD 0 ≤ lo :=
    sorted_headD_le (sortedDates_sorted recs) (mem_sortedDates.mpr hmem) 0
  have h2 : lo ≤ (sortedDates recs).headD 0 :=
    hmin _ (mem_sortedDates.mp (headD_mem hne 0))
  omega

lemma sortedDates_getLastD {recs : List CommitRecord} {hi : Nat}
    (hmem : hi ∈ recs.map (fun r => r.date))
    (hmax : ∀ d ∈ recs.map (fun r => r.date), d ≤ hi) :
    (sortedDates recs).getLastD 0 = hi := by
  have hne := sortedDates_ne_nil hmem
  have h1 : (sortedDates recs).getLastD 0 ≤ hi :=
    hmax _ (mem_sortedDates.mp (getLastD_mem hne 0))
  have h2 : hi ≤ (sortedDates recs).getLastD 0 :=
    sorted_le_getLastD _ (sortedDates_sorted recs) 0 (fun c _ => Nat.zero_le c)
      hi (mem_sortedDates.mpr hmem)
  omega

/-- On any input having at least one record, the daily series is the
contiguous range between the earliest and latest recorded date, with a
date's aggregated values where the date is recorded and zeros
elsewhere (this uniform description covers both the gap-filling branch
and the single-date branch of main.py 51-86). -/
lemma load_eq_of_bounds (recs : List CommitRecord) (w : Int) (lo hi : Nat)
    (hlo_mem : lo ∈ recs.map (fun r => r.date))
    (hlo_min : ∀ d ∈ recs.map (fun r => r.date), lo ≤ d)
    (hhi_mem : hi ∈ recs.map (fun r => r.date))
    (hhi_max : ∀ d ∈ recs.map (fun r => r.date), d ≤ hi) :
    (load_and_process_data recs w).fechas = dateRange lo hi ∧
    (load_and_process_data recs w).raw_commits =
      (dateRange lo hi).map (fun d =>
        if d ∈ recs.map (fun r => r.date) then commitsByDay recs d else 0) ∧
    (load_and_process_data recs w).raw_users =
      (dateRange lo hi).map (fun d =>
        if d ∈ recs.map (fun r => r.date) then activeUsersByDay recs d else 0) := by
  have hne := sortedDates_ne_nil hlo_mem
  have hhead := sortedDates_headD hlo_mem hlo_min
  have hlast := sortedDates_getLastD hhi_mem hhi_max
  rw [load_and_process_data, buildDaily, if_neg hne]
  by_cases hlen : 1 < (sortedDates recs).length
  · simp only [completeSeries, if_pos hlen, hhead, hlast]
    refine ⟨by trivial, ?_, ?_⟩ <;> simp
  · have hlen0 : (sortedDates recs).length ≠ 0 := by
      simpa [List.length_eq_zero] using hne
    have hlen1 : (sortedDates recs).length = 1 := by omega
    rcases List.length_eq_one.mp hlen1 with ⟨x, hx⟩
    have hxlo : x = lo := by rw [hx] at hhead; simpa using hhead
    have hxhi : x = hi := by rw [hx] at hlast; simpa using hlast
    have hrange : dateRange lo hi = [lo] := by
      have hhilo : hi = lo := by omega
      rw [hhilo]
      simp [dateRange, show lo + 1 - lo = 1 from by omega, List.range_succ]
    have hcond : (if lo ∈ recs.map (fun r => r.date)
        then commitsByDay recs lo else 0) = commitsByDay recs lo :=
      if_pos hlo_mem
    have hcond' : (if lo ∈ recs.map (fun r => r.date)
        then activeUsersByDay recs lo else 0) = activeUsersByDay recs lo :=
      if_pos hlo_mem
    simp only [completeSeries, if_neg hlen, hx, hxlo, hrange, List.map_cons,
      List.map_nil, hcond, hcond']
    exact ⟨by trivial, by trivial, by trivial⟩

lemma dateRange_map_getD {α : Type} (g : Nat → α) (lo hi : Nat) (i : Nat)
    (d0 : α) (h : i < hi + 1 - lo) :
    ((dateRange lo hi).map g).getD i d0 = g (lo + i) := by
  simp [dateRange, List.getD_eq_getElem?_getD, List.getElem?_map,
    List.getElem?_range, h]

/-- Claim C1: on any input with at least one record, the daily series'
dates form the contiguous one-day-step range from the earliest (`lo`)
to the latest (`hi`) recorded date, the raw columns have the same
length, and every range date absent from the raw aggregation gets
`total_commits = 0` and `active_users = 0`; on the concrete input with
activity only on 2024-01-01 (count 3, 1 user) and 2024-01-03 (count 2,
1 user), the result is the 3-day series
`[2024-01-01: 3/1, 2024-01-02: 0/0, 2024-01-03: 2/1]`. -/
theorem c1_daily_contiguous_gap_fill :
    (∀ (recs : List CommitRecord) (w : Int) (lo hi : Nat),
      lo ∈ recs.map (fun r => r.date) →
      (∀ d ∈ recs.map (fun r => r.date), lo ≤ d) →
      hi ∈ recs.map (fun r => r.date) →
      (∀ d ∈ recs.map (fun r => r.date), d ≤ hi) →
      (load_and_process_data recs w).fechas = dateRange lo hi ∧
      (dateRange lo hi).length = hi + 1 - lo ∧
      (∀ i, i < hi + 1 - lo → (dateRange lo hi).getD i 0 = lo + i) ∧
      (load_and_process_data recs w).raw_commits.length = hi + 1 - lo ∧
      (load_and_process_data recs w).raw_users.length = hi + 1 - lo ∧
      (∀ i, i < hi + 1 - lo →
        lo + i ∉ recs.map (fun r => r.date) →
        (load_and_process_data recs w).raw_commits.getD i 0 = 0 ∧
        (load_and_process_data recs w).raw_users.getD i 0 = 0)) ∧
    ((load_and_process_data exampleRecs 7).fechas =
        [738886, 738887, 738888] ∧
      (load_and_process_data exampleRecs 7).raw_commits = [3, 0, 2] ∧
      (load_and_process_data exampleRecs 7).raw_users = [1, 0, 1]) := by
  constructor
  · intro recs w lo hi hlo_mem hlo_min hhi_mem hhi_max
    obtain ⟨hf, hc, hu⟩ :=
      load_eq_of_bounds recs w lo hi hlo_mem hlo_min hhi_mem hhi_max
    refine ⟨hf, by simp [dateRange], ?_, ?_, ?_, ?_⟩
    · intro i hi'
      simp [dateRange, List.getD_eq_getElem?_getD, List.getElem?_map,
        List.getElem?_range, hi']
    · rw [hc]; simp [dateRange]
    · rw [hu]; simp [dateRange]
    · intro i hi' habs
      constructor
      · rw [hc, dateRange_map_getD _ _ _ _ _ hi', if_neg habs]
      · rw [hu, dateRange_map_getD _ _ _ _ _ hi', if_neg habs]
  · refine ⟨?_, ?_, ?_⟩ <;> decide

/-- Witness for C1: the general part applied to the example input with
`lo = 738886`, `hi = 738888`. -/
theorem c1_witness :
    (load_and_process_data exampleRecs 7).fechas = dateRange 738886 738888 ∧
    (load_and_process_data exampleRecs 7).raw_commits.getD 1 0 = 0 := by
  have h := c1_daily_contiguous_gap_fill.1 exampleRecs 7 738886 738888
    (by decide) (by decide) (by decide) (by decide)
  exact ⟨h.1, (h.2.2.2.2.2 1 (by decide) (by decide)).1⟩

/-- Claim C8: the daily builder is a pure, deterministic function of the
input mapping: its result is unchanged under any re-enumeration
(permutation) of the flattened records — in particular two runs on the
identical input produce identical series. -/
theorem c8_deterministic_of_input :
    ∀ (recs₁ recs₂ : List CommitRecord) (w : Int),
      List.Perm recs₁ recs₂ →
      load_and_process_data recs₁ w = load_and_process_data recs₂ w := by
  intro recs₁ recs₂ w hp
  have hdates : List.Perm (recs₁.map (fun r => r.date))
      (recs₂.map (fun r => r.date)) := hp.map _
  have hsorted : sortedDates recs₁ = sortedDates recs₂ := by
    refine List.eq_of_perm_of_sorted ?_ (sortedDates_sorted recs₁)
      (sortedDates_sorted recs₂)
    exact ((sortedDates_perm recs₁).trans hdates.dedup).trans
      (sortedDates_perm recs₂).symm
  have hcbd : commitsByDay recs₁ = commitsByDay recs₂ := by
    funext d
    exact List.Perm.sum_eq ((hp.filter _).map _)
  have haud : activeUsersByDay recs₁ = activeUsersByDay recs₂ := by
    funext d
    exact ((hp.filter _).map _).dedup.length_eq
  have hrecorded : (fun d => decide (d ∈ recs₁.map (fun r => r.date))) =
      (fun d => decide (d ∈ recs₂.map (fun r => r.date))) := by
    funext d
    exact decide_eq_decide.mpr hdates.mem_iff
  rw [load_and_process_data, load_and_process_data, hsorted, hcbd, haud,
    hrecorded]

/-- Witness for C8: swapping the two records of a concrete input leaves
the daily series unchanged. -/
theorem c8_witness :
    load_and_process_data [⟨"u", 738886, 3⟩, ⟨"v", 738888, 2⟩] 7 =
      load_and_process_data [⟨"v", 738888, 2⟩, ⟨"u", 738886, 3⟩] 7 :=
  c8_deterministic_of_input _ _ 7
    (List.Perm.swap (⟨"v", 738888, 2⟩ : CommitRecord)
      (⟨"u", 738886, 3⟩ : CommitRecord) [])

lemma digitCh_mem (d : Nat) :
    digitCh d ∈ ['0', '1', '2', '3', '4', '5', '6', '7', '8', '9'] := by
  unfold digitCh
  by_cases h : d < 10
  · rw [List.getD_eq_getElem _ _ (by simpa using h)]
    exact List.getElem_mem _
  · rw [List.getD_eq_default _ _ (by simpa using h)]
    simp

lemma digitCh_ne_W (d : Nat) : digitCh d ≠ 'W' := by
  have h := digitCh_mem d
  intro he
  rw [he] at h
  exact absurd h (by decide)

lemma natDigitsAux_mem : ∀ (n : Nat) (acc : List Char) (c : Char),
    c ∈ natDigitsAux n acc → (∃ d, c = digitCh d) ∨ c ∈ acc := by
  intro n
  induction n using Nat.strong_induction_on with
  | _ n ih =>
    intro acc c hc
    by_cases h : n = 0
    · unfold natDigitsAux at hc
      rw [dif_pos h] at hc
      exact Or.inr hc
    · unfold natDigitsAux at hc
      rw [dif_neg h] at hc
      rcases ih (n / 10)
          (Nat.div_lt_self (Nat.pos_of_ne_zero h) (by norm_num)) _ c hc with
        h' | h'
      · exact Or.inl h'
      · rcases List.mem_cons.mp h' with h'' | h''
        · exact Or.inl ⟨n % 10, h''⟩
        · exact Or.inr h''

lemma mem_natDigits {n : Nat} {c : Char} (hc : c ∈ natDigits n) :
    ∃ d, c = digitCh d := by
  unfold natDigits at hc
  by_cases h : n = 0
  · rw [if_pos h] at hc
    simp at hc
    exact ⟨0, by rw [hc]; rfl⟩
  · rw [if_neg h] at hc
    rcases natDigitsAux_mem n [] c hc with h' | h'
    · exact h'
    · simp at h'

lemma strptime_mem_W {s : List Char} (h : strptime_GWVu s = true) :
    'W' ∈ s := by
  rcases s with _ | ⟨a, s⟩
  · simp [strptime_GWVu] at h
  rcases s with _ | ⟨b, s⟩
  · simp [strptime_GWVu] at h
  rcases s with _ | ⟨c, s⟩
  · simp [strptime_GWVu] at h
  rcases s with _ | ⟨d, s⟩
  · simp [strptime_GWVu] at h
  rcases s with _ | ⟨e, s⟩
  · simp [strptime_GWVu] at h
  rcases s with _ | ⟨f, s⟩
  · simp [strptime_GWVu] at h
  have hf : f = 'W' := by
    simp only [strptime_GWVu, Bool.and_eq_true, decide_eq_true_eq] at h
    tauto
  subst hf
  simp

lemma not_W_mem_weekLabel (y w : Nat) : 'W' ∉ weekLabelParseStr y w := by
  intro hmem
  simp only [weekLabelParseStr, List.mem_append, List.mem_cons,
    List.not_mem_nil, or_false] at hmem
  rcases hmem with h | h | h | h | h
  · rcases mem_natDigits h with ⟨d, hd⟩
    exact digitCh_ne_W d hd.symm
  · exact absurd h (by decide)
  · rcases mem_natDigits h with ⟨d, hd⟩
    exact digitCh_ne_W d hd.symm
  · exact absurd h (by decide)
  · exact absurd h (by decide)

lemma strptime_weekLabel_false (y w : Nat) :
    strptime_GWVu (weekLabelParseStr y w) = false := by
  cases h : strptime_GWVu (weekLabelParseStr y w)
  · rfl
  · exact absurd (strptime_mem_W h) (not_W_mem_weekLabel y w)

/-- The weekly builder returns the empty series on every input: for any
record at all, the `strptime` of main.py 167 raises (its string never
contains the `'W'` the format requires) and the handler returns the
empty dict; with no records the empty branch is taken directly. -/
lemma calculate_weekly_data_empty (iso : Nat → Nat × Nat)
    (mondayOf : Nat → Nat → Nat) (recs : List CommitRecord) :
    calculate_weekly_data iso mondayOf recs = emptyWeekly := by
  rw [calculate_weekly_data]
  by_cases h : weekKeys iso recs = []
  · rw [if_pos h]
  · rw [if_neg h]
    have hall : (weekKeys iso recs).all
        (fun k => strptime_GWVu (weekLabelParseStr k.1 k.2)) = false := by
      cases hb : (weekKeys iso recs).all
          (fun k => strptime_GWVu (weekLabelParseStr k.1 k.2))
      · rfl
      · exfalso
        rw [List.all_eq_true] at hb
        obtain ⟨k, hk⟩ := List.exists_mem_of_ne_nil _ h
        have hkt := hb k hk
        rw [strptime_weekLabel_false] at hkt
        exact Bool.false_ne_true hkt
    rw [hall]
    simp

/-- Claim C4: no week produced by the weekly builder has zero activity:
every entry satisfies `total_commits > 0` or `active_users > 0`.  (It
holds vacuously: the builder's week-start parse always raises, so the
produced weekly series is always empty — see C7/C9.) -/
theorem c4_weekly_no_zero_activity :
    ∀ (iso : Nat → Nat × Nat) (mondayOf : Nat → Nat → Nat)
      (recs : List CommitRecord),
      List.Forall (fun p : Int × Nat => 0 < p.1 ∨ 0 < p.2)
        ((calculate_weekly_data iso mondayOf recs).commits.zip
          (calculate_weekly_data iso mondayOf recs).active_users) := by
  intro iso mondayOf recs
  rw [calculate_weekly_data_empty]
  exact trivial

/-- Claim C6: a failed load (missing file or malformed JSON) makes both
builders yield the empty series instead of propagating an error, and
the per-country processing is independent: replacing one country's
input by a failed load leaves every other country's output unchanged. -/
theorem c6_failed_load_yields_empty :
    (∀ w : Int, load_and_process_data_opt none w = emptyDaily ∧
      (load_and_process_data_opt none w).fechas = [] ∧
      (load_and_process_data_opt none w).raw_commits = [] ∧
      (load_and_process_data_opt none w).raw_users = [] ∧
      (load_and_process_data_opt none w).commits_rolling_avg = [] ∧
      (load_and_process_data_opt none w).users_rolling_avg = []) ∧
    (∀ (iso : Nat → Nat × Nat) (mondayOf : Nat → Nat → Nat),
      calculate_weekly_data_opt iso mondayOf none = emptyWeekly) ∧
    (∀ (inputs : List (Option (List CommitRecord))) (w : Int) (i j : Nat),
      j ≠ i →
      (processAllDaily (inputs.set i none) w)[j]? =
        (processAllDaily inputs w)[j]?) := by
  refine ⟨fun w => ⟨rfl, rfl, rfl, rfl, rfl, rfl⟩, fun _ _ => rfl, ?_⟩
  intro inputs w i j hij
  simp [processAllDaily, List.getElem?_map,
    List.getElem?_set_ne (Ne.symm hij)]

/-- Witness for C6: failing country 0's load does not change country
1's series. -/
theorem c6_witness :
    (processAllDaily ([some exampleRecs, some exampleRecs].set 0 none)
        7)[1]? =
      (processAllDaily [some exampleRecs, some exampleRecs] 7)[1]? :=
  c6_failed_load_yields_empty.2.2 [some exampleRecs, some exampleRecs] 7 0 1
    (by norm_num)

/-- Claim C7 (code bug): the weekly builder never emits the sorted,
Monday-dated weekly series the claim (and the code's own comments at
main.py 160-167) describe; `strptime(f"{year}-{week_num}-1",
"%G-W%V-%u")` raises `ValueError` for every week key because the built
string (e.g. `"2024-1-1"`) lacks the literal `'W'` the format demands,
so the whole call returns the empty series — here evaluated on the
one-record input with 3 commits on 2024-01-01. -/
theorem c7_weekly_builder_empty_bug :
    ∀ (iso : Nat → Nat × Nat) (mondayOf : Nat → Nat → Nat),
      calculate_weekly_data iso mondayOf [⟨"u", 738886, 3⟩] =
        emptyWeekly ∧
      strptime_GWVu (weekLabelParseStr 2024 1) = false := by
  intro iso mondayOf
  exact ⟨calculate_weekly_data_empty iso mondayOf _,
    strptime_weekLabel_false 2024 1⟩

/-- Claim C9 (code bug): a record with count 0 on date `d` does make
`d` a recorded date of the daily series (included, with
`total_commits = 0` and `active_users = 0`, and determining an endpoint
of the contiguous range), but the weekly builder creates no entry for
`d`'s ISO week: its week-start parse raises and the whole weekly series
comes back empty.  Evaluated at a single zero-count record on
2024-01-05 (ordinal 738890) and at a two-record input where the
zero-count date is the left endpoint. -/
theorem c9_zero_count_date_bug :
    ∀ (iso : Nat → Nat × Nat) (mondayOf : Nat → Nat → Nat),
      (load_and_process_data [⟨"u", 738890, 0⟩] 7).fechas = [738890] ∧
      (load_and_process_data [⟨"u", 738890, 0⟩] 7).raw_commits = [0] ∧
      (load_and_process_data [⟨"u", 738890, 0⟩] 7).raw_users = [0] ∧
      (load_and_process_data
          [⟨"u", 738890, 0⟩, ⟨"v", 738892, 5⟩] 7).fechas =
        [738890, 738891, 738892] ∧
      calculate_weekly_data iso mondayOf [⟨"u", 738890, 0⟩] =
        emptyWeekly := by
  intro iso mondayOf
  exact ⟨by decide, by decide, by decide, by decide,
    calculate_weekly_data_empty iso mondayOf _⟩

lemma exists_min_max (M : List Nat) (h : M ≠ []) :
    ∃ lo hi, lo ∈ M ∧ (∀ d ∈ M, lo ≤ d) ∧ hi ∈ M ∧ (∀ d ∈ M, d ≤ hi) := by
  induction M with
  | nil => exact absurd rfl h
  | cons a t ih =>
    by_cases ht : t = []
    · subst ht
      exact ⟨a, a, by simp, by simp, by simp, by simp⟩
    · obtain ⟨lo, hi, h1, h2, h3, h4⟩ := ih ht
      refine ⟨min a lo, max a hi, ?_, ?_, ?_, ?_⟩
      · rcases le_total a lo with hle | hle
        · rw [min_eq_left hle]; exact List.mem_cons_self a t
        · rw [min_eq_right hle]; exact List.mem_cons_of_mem a h1
      · intro d hd
        rcases List.mem_cons.mp hd with rfl | hdt
        · exact min_le_left _ _
        · exact le_trans (min_le_right a lo) (h2 d hdt)
      · rcases le_total a hi with hle | hle
        · rw [max_eq_right hle]; exact List.mem_cons_of_mem a h3
        · rw [max_eq_left hle]; exact List.mem_cons_self a t
      · intro d hd
        rcases List.mem_cons.mp hd with rfl | hdt
        · exact le_max_left _ _
        · exact le_trans (h4 d hdt) (le_max_right a hi)

lemma filter_date_cnt (recs : List CommitRecord) (d : Nat) :
    recs.filter (fun r => decide (r.date = d) && decide (0 < r.cnt)) =
      (recs.filter (fun r => decide (r.date = d))).filter
        (fun r => decide (0 < r.cnt)) := by
  rw [List.filter_filter]
  exact List.filter_congr (fun a _ => Bool.and_comm _ _)

lemma dedup_users_le_sum (l : List CommitRecord)
    (h : ∀ r ∈ l, 0 ≤ r.cnt) :
    (((l.filter (fun r => decide (0 < r.cnt))).map
      (fun r => r.user)).dedup.length : Int) ≤
      (l.map (fun r => r.cnt)).sum := by
  induction l with
  | nil => simp
  | cons a t ih =>
    have ha : 0 ≤ a.cnt := h a (List.mem_cons_self a t)
    have ht : ∀ r ∈ t, 0 ≤ r.cnt := fun r hr => h r (List.mem_cons_of_mem a hr)
    have iht := ih ht
    rw [List.map_cons, List.sum_cons]
    by_cases hc : 0 < a.cnt
    · rw [List.filter_cons_of_pos (by simpa using hc), List.map_cons]
      have hdl : ((a.user :: (t.filter (fun r => decide (0 < r.cnt))).map
          (fun r => r.user)).dedup).length ≤
          ((t.filter (fun r => decide (0 < r.cnt))).map
            (fun r => r.user)).dedup.length + 1 := by
        by_cases hmem : a.user ∈ (t.filter (fun r => decide (0 < r.cnt))).map
            (fun r => r.user)
        · rw [List.dedup_cons_of_mem hmem]
          omega
        · rw [List.dedup_cons_of_not_mem hmem]
          simp
      omega
    · have hc0 : a.cnt = 0 := by omega
      rw [List.filter_cons_of_neg (by simpa using hc), hc0]
      omega

lemma activeUsers_le_commits (recs : List CommitRecord)
    (h : ∀ r ∈ recs, 0 ≤ r.cnt) (d : Nat) :
    (activeUsersByDay recs d : Int) ≤ commitsByDay recs d := by
  rw [activeUsersByDay, commitsByDay, filter_date_cnt]
  exact dedup_users_le_sum (recs.filter (fun r => decide (r.date = d)))
    (fun r hr => h r (List.mem_of_mem_filter hr))

/-- Claim C10: when all input counts are non-negative, every daily
entry satisfies `active_users ≤ total_commits` (each user counted
active contributed at least 1 to the total), and the same holds for
every weekly entry (vacuously: the weekly output is always empty, see
C7/C9). -/
theorem c10_users_le_commits :
    (∀ (recs : List CommitRecord) (w : Int),
      (∀ r ∈ recs, 0 ≤ r.cnt) →
      ∀ i, i < (load_and_process_data recs w).fechas.length →
        ((load_and_process_data recs w).raw_users.getD i 0 : Int) ≤
          (load_and_process_data recs w).raw_commits.getD i 0) ∧
    (∀ (iso : Nat → Nat × Nat) (mondayOf : Nat → Nat → Nat)
      (recs : List CommitRecord),
      List.Forall (fun p : Int × Nat => (p.2 : Int) ≤ p.1)
        ((calculate_weekly_data iso mondayOf recs).commits.zip
          (calculate_weekly_data iso mondayOf recs).active_users)) := by
  constructor
  · intro recs w hpos i hilen
    by_cases hne : recs.map (fun r => r.date) = []
    · rw [List.map_eq_nil_iff] at hne
      subst hne
      have hload : load_and_process_data [] w = emptyDaily := rfl
      rw [hload] at hilen
      simp [emptyDaily] at hilen
    · obtain ⟨lo, hi, hmem, hmin, hmem', hmax⟩ := exists_min_max _ hne
      obtain ⟨hf, hc, hu⟩ := load_eq_of_bounds recs w lo hi hmem hmin hmem' hmax
      rw [hf] at hilen
      have hi2 : i < hi + 1 - lo := by simpa [dateRange] using hilen
      rw [hc, hu, dateRange_map_getD _ _ _ _ _ hi2,
        dateRange_map_getD _ _ _ _ _ hi2]
      by_cases hmem2 : (lo + i) ∈ recs.map (fun r => r.date)
      · rw [if_pos hmem2, if_pos hmem2]
        exact activeUsers_le_commits recs hpos (lo + i)
      · rw [if_neg hmem2, if_neg hmem2]
        simp
  · intro iso mondayOf recs
    rw [calculate_weekly_data_empty]
    exact trivial

/-- Witness for C10 at the example input (all counts non-negative). -/
theorem c10_witness :
    ((load_and_process_data exampleRecs 7).raw_users.getD 0 0 : Int) ≤
      (load_and_process_data exampleRecs 7).raw_commits.getD 0 0 :=
  c10_users_le_commits.1 exampleRecs 7 (by decide) 0 (by decide)
